import Mathlib

/-!
Shallow embedding of the token-verification and authorization-decision engine of the
beanox/webservice repository.

The repository contains the current `authorization` package middleware
(`authorization/authorization-middleware.go`, the golang-jwt/jwt/v4 variant matching the
module's go.mod) together with an older embedded variant of the same middleware living in
the `webservice` package (string-encoded scopes, per-route `apphandler` enforcement).
Both are embedded here because different claims target different variants:

* `Authorization`, `getKey`, `middlewareResolve`, `appHandlerServe`: the `authorization`
  package (current) — key resolution keyed by the JWK's own algorithm, list-encoded
  `scopes` claim, middleware-side scope check, package-level enforcement.
* `AuthorizationWs`, `wsMiddlewareResolve`, `apphandler`, `apphandlerServeHTTP`: the
  `webservice`-package variant — space-delimited `scope` claim, no middleware-side scope
  check, per-route override builder and enforcement in `apphandler.ServeHTTP`.

Go strings that are split or trimmed are modelled as `List Char`; JSON claim values as
`JsonVal`; Go maps (`jwt.MapClaims`, token headers) as association lists. The three Go
sentinel `*UserInfo` pointers are distinguished by pointer identity in the source; a
freshly allocated `&UserInfo{...}` is never reference-equal to a sentinel, so the request
state is modelled as the tagged type `ResolvedUser`/`WsResolved`, with the sentinels'
field contents kept as separate definitions for field-coincidence statements.
-/

namespace BeanoxWebservice

/-- JSON-decoded claim value as seen through Go type assertions: the middleware only
distinguishes strings, arrays (`[]interface{}`) and everything else. -/
inductive JsonVal where
  | str (s : String)
  | arr (elems : List JsonVal)
  | other
  deriving Repr

/-- Go map `jwt.MapClaims` / token header map, as an association list (Go maps have
unique keys; lookup returns the first binding). -/
abbrev Claims := List (String × JsonVal)

/-- Go pattern `v, ok := claims[key].(string); if ok { x = v }` with `x` zero-initialised:
yields the string value, or `""` when the key is absent or not a string. -/
def lookupString (claims : Claims) (key : String) : String :=
  match claims.lookup key with
  | some (JsonVal.str s) => s
  | _ => ""

/-- `UserInfo` struct of the authorization package (UserID, Email, Scopes, Claims). -/
structure UserInfo where
  userID : String
  email : String
  scopes : List String
  claims : Claims
  deriving Repr

/-- Field contents of the Go sentinel `var userWithInvalidToken = &UserInfo{UserID: "_invalid_token_"}`. -/
def userWithInvalidToken : UserInfo := ⟨"_invalid_token_", "", [], []⟩

/-- Field contents of the Go sentinel `var userWithInvalidScope = &UserInfo{UserID: "_invalid_scope_"}`. -/
def userWithInvalidScope : UserInfo := ⟨"_invalid_scope_", "", [], []⟩

/-- Field contents of the Go sentinel `var unauthenticatedUser = &UserInfo{UserID: "_unauthenticated_user_"}`. -/
def unauthenticatedUser : UserInfo := ⟨"_unauthenticated_user_", "", [], []⟩

/-- `UserInfo.HasScope`: linear search of `ui.Scopes` for an exact match. -/
def hasScope (ui : UserInfo) (scope : String) : Bool :=
  ui.scopes.contains scope

/-- Raw key material held by a JWK entry; `key.Raw(&target)` in jwx succeeds only when
the material matches the target type. The `Nat` payload stands for the opaque key bits. -/
inductive KeyMaterial where
  | rsaKey (bits : Nat)
  | ecKey (bits : Nat)
  | otherKey
  deriving Repr, DecidableEq

/-- One entry of a JSON Web Key Set: key id, declared algorithm (`key.Algorithm()`), material. -/
structure JwkKey where
  keyID : String
  algorithm : String
  material : KeyMaterial
  deriving Repr, DecidableEq

/-- `jwk.Set` as the list of its keys. -/
abbrev JwkSet := List JwkKey

/-- `jwks.LookupKeyID(kid)`: first key whose key id matches. -/
def lookupKeyID (s : JwkSet) (kid : String) : Option JwkKey :=
  s.find? (fun k => k.keyID == kid)

/-- Public key returned by the key callback: `*rsa.PublicKey` or `*ecdsa.PublicKey`. -/
inductive VerificationKey where
  | rsaPublic (bits : Nat)
  | ecdsaPublic (bits : Nat)
  deriving Repr, DecidableEq

/-- `key.Raw(&publicKey)` with `publicKey : rsa.PublicKey`: materialises only RSA keys. -/
def rawAsRSA (k : JwkKey) : Except String VerificationKey :=
  match k.material with
  | KeyMaterial.rsaKey b => Except.ok (VerificationKey.rsaPublic b)
  | _ => Except.error "failed to materialize key as RSA public key"

/-- `key.Raw(&publicKey)` with `publicKey : ecdsa.PublicKey`: materialises only EC keys. -/
def rawAsECDSA (k : JwkKey) : Except String VerificationKey :=
  match k.material with
  | KeyMaterial.ecKey b => Except.ok (VerificationKey.ecdsaPublic b)
  | _ => Except.error "failed to materialize key as ECDSA public key"

/-- `Authorization` struct of the authorization package. `autoRefresh` records whether the
`jwk.AutoRefresh` handle was installed; `userValidator` is the optional pluggable
validator passed to `New`. -/
structure Authorization where
  jwks : Option JwkSet
  jwksURL : String
  autoRefresh : Bool
  requiredScope : String
  allowAnonymous : Bool
  invalidTokenIsAnonymous : Bool
  invalidScopeIsAnonymous : Bool
  disabled : Bool
  userValidator : Option (UserInfo → Bool)

/-- Key-set resolution step of the key callback: `jwks := a.jwks`, overridden by
`a.autoRefresh.Fetch(...)` when auto refresh is configured. `fetched` is the outcome of
that network fetch. -/
def resolveJwks (a : Authorization) (fetched : Except String JwkSet) :
    Except String (Option JwkSet) :=
  if a.autoRefresh then
    match fetched with
    | Except.ok s => Except.ok (some s)
    | Except.error e => Except.error e
  else
    Except.ok a.jwks

/-- Key callback passed to `jwt.Parse` in `Authorization.Middleware`: reads the token
header's `kid`, resolves the key set, looks the key up by id, and picks the
materialisation scheme from the KEY's declared algorithm (`jwa.RS256` / `jwa.ES256`),
rejecting every other algorithm. The token's own claimed `alg` header is never read. -/
def getKey (a : Authorization) (fetched : Except String JwkSet) (tokenHeader : Claims) :
    Except String VerificationKey :=
  match tokenHeader.lookup "kid" with
  | some (JsonVal.str keyID) =>
    (match resolveJwks a fetched with
     | Except.error e => Except.error e
     | Except.ok none => Except.error "jwks not available"
     | Except.ok (some jwks) =>
       match lookupKeyID jwks keyID with
       | some key =>
         if key.algorithm = "RS256" then rawAsRSA key
         else if key.algorithm = "ES256" then rawAsECDSA key
         else Except.error ("unsupported algorithm " ++ key.algorithm)
       | none => Except.error ("unable to find key with id: " ++ keyID))
  | _ => Except.error "no key ID in token header"

/-- Modelled from the spec (§4.2) for the external golang-jwt library: `jwt.Parse`
succeeds only when the key callback returns a key and the token's signature verifies
under that key; any callback error fails the parse. -/
def jwtParseModel (keyResult : Except String VerificationKey)
    (sigOk : VerificationKey → Bool) (payload : Claims) : Option Claims :=
  match keyResult with
  | Except.error _ => none
  | Except.ok k => if sigOk k then some payload else none

/-- Separator literal of `strings.Split(tokenString, "Bearer")`. -/
def bearerChars : List Char := ['B', 'e', 'a', 'r', 'e', 'r']

/-- Index of the leftmost occurrence of `"Bearer"` in a character list, if any. -/
def firstOcc : List Char → Option Nat
  | [] => none
  | c :: rest =>
    if bearerChars.isPrefixOf (c :: rest) then some 0
    else (firstOcc rest).map (· + 1)

/-- Go `strings.Split(s, "Bearer")`: cut at each leftmost non-overlapping occurrence of
the separator (6 characters). -/
def splitBearer (s : List Char) : List (List Char) :=
  match h : firstOcc s with
  | none => [s]
  | some i => s.take i :: splitBearer (s.drop (i + 6))
termination_by s.length
decreasing_by
  have hne : s ≠ [] := by
    intro hs
    subst hs
    simp [firstOcc] at h
  simp only [List.length_drop]
  have : 0 < s.length := List.length_pos.mpr hne
  omega

/-- Number of leftmost non-overlapping occurrences of `"Bearer"`. -/
def countBearer (s : List Char) : Nat :=
  match h : firstOcc s with
  | none => 0
  | some i => countBearer (s.drop (i + 6)) + 1
termination_by s.length
decreasing_by
  have hne : s ≠ [] := by
    intro hs
    subst hs
    simp [firstOcc] at h
  simp only [List.length_drop]
  have : 0 < s.length := List.length_pos.mpr hne
  omega

/-- Go `strings.Trim(s, " ")`: drop leading and trailing space characters. -/
def trimSpaces (s : List Char) : List Char :=
  ((s.dropWhile (· = ' ')).reverse.dropWhile (· = ' ')).reverse

/-- Header-splitting step of the middleware: `splitToken := strings.Split(header, "Bearer")`;
when `len(splitToken) == 2` the second part, trimmed of spaces, is the token string
handed to `jwt.Parse`; any other length is logged as a wrong header and rejected. -/
def parseBearer (header : List Char) : Option (List Char) :=
  match splitBearer header with
  | [_, second] => some (trimSpaces second)
  | _ => none

/-- `claims["scopes"].([]interface{})` of the authorization package: accepts only a
list-valued claim, collecting its string elements (other elements skipped); every other
shape leaves the scope list empty. -/
def extractScopes (claims : Claims) : List String :=
  match claims.lookup "scopes" with
  | some (JsonVal.arr elems) =>
    elems.filterMap (fun v =>
      match v with
      | JsonVal.str s => some s
      | _ => none)
  | _ => []

/-- Tagged model of the `*UserInfo` value stored in the request context by the
authorization-package middleware. The Go code compares the three sentinel pointers by
reference; a freshly allocated `&UserInfo{...}` is never reference-equal to a sentinel,
so pointer identity is exactly this tag. -/
inductive ResolvedUser where
  | unauthenticated
  | invalidToken
  | invalidScope
  | user (u : UserInfo)
  deriving Repr

/-- Claim extraction and scope check of `Authorization.Middleware` after `jwt.Parse`
succeeded with map claims `claims` and a valid token: build the user from `sub`, `email`
and the list-encoded scopes; an empty `sub` leaves the invalid-token sentinel in place;
then either the pluggable `userValidator` or the required-scope check may demote the
user to the invalid-scope sentinel. -/
def resolveVerified (a : Authorization) (claims : Claims) : ResolvedUser :=
  let uid := lookupString claims "sub"
  let mail := lookupString claims "email"
  let scopes := extractScopes claims
  if uid ≠ "" then
    let userInfo : UserInfo := ⟨uid, mail, scopes, claims⟩
    match a.userValidator with
    | some validator =>
      if validator userInfo then ResolvedUser.user userInfo else ResolvedUser.invalidScope
    | none =>
      if a.requiredScope ≠ "" ∧ a.requiredScope ≠ "*" ∧
          ¬hasScope userInfo a.requiredScope ∧ ¬hasScope userInfo "*" then
        ResolvedUser.invalidScope
      else
        ResolvedUser.user userInfo
  else
    ResolvedUser.invalidToken

/-- Per-request state resolution of `Authorization.Middleware`: disabled or absent header
leaves the unauthenticated sentinel; a header whose `"Bearer"` split has a length other
than two is a wrong header (invalid token); otherwise the trimmed token is verified.
`verify` abstracts `jwt.Parse` plus signature verification (see `jwtParseModel`): it
yields the map claims exactly when parsing, key resolution and the signature all succeed. -/
def middlewareResolve (a : Authorization) (authHeader : List Char)
    (verify : List Char → Option Claims) : ResolvedUser :=
  if a.disabled then ResolvedUser.unauthenticated
  else if authHeader = [] then ResolvedUser.unauthenticated
  else
    match parseBearer authHeader with
    | none => ResolvedUser.invalidToken
    | some tokenString =>
      match verify tokenString with
      | none => ResolvedUser.invalidToken
      | some claims => resolveVerified a claims

/-- Terminal outcome of a handler invocation: the wrapped handler runs with the given
user (allow), or a structured HTTP error is written, or the Go code would dereference a
nil pointer (panic). -/
inductive Outcome where
  | allow (userInfo : Option UserInfo)
  | httpError (code : Nat) (message : String)
  | panicked
  deriving Repr

/-- `AppHandler.ServeHTTP` of the authorization package: enforcement of the resolved
state. Missing middleware handle is an internal error; a disabled middleware allows with
no user; otherwise the sentinels map to allow-as-anonymous or 401/403 per the global
options, and a genuine user is passed through. -/
def appHandlerServe (auth : Option Authorization) (ctxUser : Option ResolvedUser) :
    Outcome :=
  match auth with
  | none => Outcome.httpError 500 "Authorization info not available"
  | some a =>
    if a.disabled then Outcome.allow none
    else
      match ctxUser with
      | none =>
        if a.allowAnonymous then Outcome.allow none
        else Outcome.httpError 500 "Unable to get user info"
      | some ResolvedUser.unauthenticated =>
        if a.allowAnonymous then Outcome.allow none
        else Outcome.httpError 401 "Unauthorized"
      | some ResolvedUser.invalidToken =>
        if a.invalidTokenIsAnonymous then Outcome.allow none
        else Outcome.httpError 401 "Unauthorized"
      | some ResolvedUser.invalidScope =>
        if a.invalidScopeIsAnonymous then Outcome.allow none
        else Outcome.httpError 403 "Forbidden"
      | some (ResolvedUser.user u) => Outcome.allow (some u)

/-- Accumulator pass of Go `strings.Fields`: split around runs of whitespace, dropping
empty pieces. -/
def fieldsAux : List Char → List Char → List (List Char)
  | [], acc => if acc = [] then [] else [acc.reverse]
  | c :: rest, acc =>
    if c.isWhitespace then
      if acc = [] then fieldsAux rest []
      else acc.reverse :: fieldsAux rest []
    else fieldsAux rest (c :: acc)

/-- Go `strings.Fields(s)`. -/
def goFields (s : String) : List String :=
  (fieldsAux s.data []).map (fun l => String.mk l)

/-- `claims["scope"].(string)` of the webservice-package variant: accepts only a
string-valued claim, split into fields on whitespace; every other shape leaves the scope
list empty. -/
def wsExtractScopes (claims : Claims) : List String :=
  match claims.lookup "scope" with
  | some (JsonVal.str s) => goFields s
  | _ => []

/-- `authorization` struct of the webservice-package variant (no pluggable validator). -/
structure AuthorizationWs where
  jwks : Option JwkSet
  jwksURL : String
  autoRefresh : Bool
  requiredScope : String
  allowAnonymous : Bool
  invalidTokenIsAnonymous : Bool
  invalidScopeIsAnonymous : Bool
  disabled : Bool
  deriving Repr, DecidableEq

/-- Tagged model of the context `*UserInfo` for the webservice-package variant, which
defines only the unauthenticated and invalid-token sentinels (the scope check lives in
`apphandler.ServeHTTP`, not in the middleware). -/
inductive WsResolved where
  | unauthenticated
  | invalidToken
  | user (u : UserInfo)
  deriving Repr

/-- Per-request state resolution of the webservice-package `authorization.Middleware`:
same header handling as the current variant, but scopes come from the space-delimited
`scope` string claim, a non-empty `sub` always yields the user (no scope check here),
and there is no disabled short-circuit in the middleware itself. -/
def wsMiddlewareResolve (authHeader : List Char) (verify : List Char → Option Claims) :
    WsResolved :=
  if authHeader = [] then WsResolved.unauthenticated
  else
    match parseBearer authHeader with
    | none => WsResolved.invalidToken
    | some tokenString =>
      match verify tokenString with
      | none => WsResolved.invalidToken
      | some claims =>
        let uid := lookupString claims "sub"
        let mail := lookupString claims "email"
        let scopes := wsExtractScopes claims
        if uid ≠ "" then WsResolved.user ⟨uid, mail, scopes, claims⟩
        else WsResolved.invalidToken

/-- Per-route `apphandler` of the webservice package: the wrapped handler plus the four
optional route-level overrides (nil pointer = not set). The handler callback itself is
represented by the `Outcome.allow` result. -/
structure apphandler where
  allowedScopes : Option (List String)
  allowAnonymous : Option Bool
  invalidTokenIsAnonymous : Option Bool
  invalidScopeIsAnonymous : Option Bool
  deriving Repr, DecidableEq

/-- `AppHandler(fn)`: a fresh route handler with no overrides set. -/
def AppHandlerRoute : apphandler := ⟨none, none, none, none⟩

/-- `apphandler.AllowScopes(scopes...)`: set the route's allowed-scopes override. -/
def apphandler.AllowScopes (ah : apphandler) (allowedScopes : List String) : apphandler :=
  { ah with allowedScopes := some allowedScopes }

/-- `apphandler.AllowAnonymous()`: sets the route's allow-anonymous override and ALSO the
invalid-token-is-anonymous and invalid-scope-is-anonymous overrides, all to true. -/
def apphandler.AllowAnonymous (ah : apphandler) : apphandler :=
  { ah with
      allowAnonymous := some true
      invalidTokenIsAnonymous := some true
      invalidScopeIsAnonymous := some true }

/-- `apphandler.InvalidTokenIsAnonymous()`: sets only its own override. -/
def apphandler.InvalidTokenIsAnonymous (ah : apphandler) : apphandler :=
  { ah with invalidTokenIsAnonymous := some true }

/-- `apphandler.InvalidScopeIsAnonymous()`: sets only its own override. -/
def apphandler.InvalidScopeIsAnonymous (ah : apphandler) : apphandler :=
  { ah with invalidScopeIsAnonymous := some true }

/-- Effective allow-anonymous of `apphandler.ServeHTTP`: route override when set, else the
global `a.allowAnonymous`. -/
def effAllowAnonymous (a : AuthorizationWs) (ah : apphandler) : Bool :=
  ah.allowAnonymous.getD a.allowAnonymous

/-- Effective invalid-token-is-anonymous of `apphandler.ServeHTTP`. The source line is
`invalidTokenIsAnonymous := a.invalidScopeIsAnonymous`: with no route override the
fallback reads the global invalid-SCOPE flag, not the invalid-token flag. -/
def effInvalidTokenIsAnonymous (a : AuthorizationWs) (ah : apphandler) : Bool :=
  ah.invalidTokenIsAnonymous.getD a.invalidScopeIsAnonymous

/-- Effective invalid-scope-is-anonymous of `apphandler.ServeHTTP`. -/
def effInvalidScopeIsAnonymous (a : AuthorizationWs) (ah : apphandler) : Bool :=
  ah.invalidScopeIsAnonymous.getD a.invalidScopeIsAnonymous

/-- Effective allowed scopes of `apphandler.ServeHTTP`: route override when set, else the
singleton list holding the global required scope. -/
def effAllowedScopes (a : AuthorizationWs) (ah : apphandler) : List String :=
  ah.allowedScopes.getD [a.requiredScope]

/-- Scope loop of `apphandler.ServeHTTP`: any entry that is `""`, `"*"` or contained in
the user's scopes passes. The user pointer can be nil on this path (context value missing
with allow-anonymous set): `HasScope` on a nil receiver dereferences nil, modelled as
`Except.error ()` (runtime panic). -/
def scopeLoop (userInfo : Option UserInfo) : List String → Except Unit Bool
  | [] => Except.ok false
  | scp :: rest =>
    if scp = "" ∨ scp = "*" then Except.ok true
    else
      match userInfo with
      | none => Except.error ()
      | some ui =>
        if hasScope ui scp then Except.ok true
        else scopeLoop userInfo rest

/-- Scope branch of `apphandler.ServeHTTP` (reached for any context user that is neither
sentinel): pass the user through on a scope match, else anonymous or 403 per the
effective invalid-scope policy. -/
def scopeBranch (userInfo : Option UserInfo) (allowedScopes : List String)
    (invalidScopeIsAnonymous : Bool) : Outcome :=
  match scopeLoop userInfo allowedScopes with
  | Except.error _ => Outcome.panicked
  | Except.ok true => Outcome.allow userInfo
  | Except.ok false =>
    if invalidScopeIsAnonymous then Outcome.allow none
    else Outcome.httpError 403 "Forbidden"

/-- `apphandler.ServeHTTP` of the webservice package: without the middleware handle the
handler runs anonymously; with it, the four effective fields are merged from route
overrides and globals, the sentinels map to allow-as-anonymous / 401, and every other
user goes through the route scope check. -/
def apphandlerServeHTTP (ah : apphandler) (auth : Option AuthorizationWs)
    (ctxUser : Option WsResolved) : Outcome :=
  match auth with
  | none => Outcome.allow none
  | some a =>
    if a.disabled then Outcome.allow none
    else
      let allowAnonymous := effAllowAnonymous a ah
      let invalidTokenIsAnonymous := effInvalidTokenIsAnonymous a ah
      let invalidScopeIsAnonymous := effInvalidScopeIsAnonymous a ah
      let allowedScopes := effAllowedScopes a ah
      match ctxUser with
      | none =>
        if allowAnonymous then scopeBranch none allowedScopes invalidScopeIsAnonymous
        else Outcome.httpError 500 "Unable to get user info"
      | some WsResolved.unauthenticated =>
        if allowAnonymous then Outcome.allow none
        else Outcome.httpError 401 "Unauthorized"
      | some WsResolved.invalidToken =>
        if invalidTokenIsAnonymous then Outcome.allow none
        else Outcome.httpError 401 "Unauthorized"
      | some (WsResolved.user u) =>
        scopeBranch (some u) allowedScopes invalidScopeIsAnonymous



/-- Modelled from the spec's words (§4.2, §6) for comparison with the source behaviour:
the header consists of the "Bearer" marker followed, after trimming, by exactly one
non-empty space-free token segment, with no further marker occurrence. -/
def specBearerHeaderOk (header : List Char) : Bool :=
  bearerChars.isPrefixOf header &&
  (firstOcc (header.drop 6)).isNone &&
  !(trimSpaces (header.drop 6)).isEmpty &&
  (trimSpaces (header.drop 6)).all (fun c => c != ' ')

/-- Concrete claims map with the string-encoded scope claim (C4). -/
def claimsScopeStr : Claims :=
  [("sub", JsonVal.str "bob"), ("scope", JsonVal.str "read write")]

/-- Concrete claims map with the list-encoded scopes claim carrying the same scope set (C4). -/
def claimsScopeList : Claims :=
  [("sub", JsonVal.str "bob"), ("scopes", JsonVal.arr [JsonVal.str "read", JsonVal.str "write"])]

/-- Concrete claims map used by the C3 witness. -/
def claimsAlice : Claims :=
  [("sub", JsonVal.str "alice"), ("scopes", JsonVal.arr [JsonVal.str "read"])]

/-- Concrete claims map used by the C6 witness. -/
def claimsBob : Claims :=
  [("sub", JsonVal.str "bob"), ("scopes", JsonVal.arr [JsonVal.str "write"])]

/-- Concrete claims map used by the C8 witness: sub equals the sentinel field value. -/
def claimsSentinelLike : Claims :=
  [("sub", JsonVal.str "_invalid_token_"), ("scopes", JsonVal.arr [JsonVal.str "*"])]

/-! ## Helper lemmas -/

theorem firstOcc_some_ne_nil {s : List Char} {i : Nat} (h : firstOcc s = some i) :
    s ≠ [] := by
  intro hs
  subst hs
  simp [firstOcc] at h

theorem splitBearer_of_none {s : List Char} (h : firstOcc s = none) :
    splitBearer s = [s] := by
  rw [splitBearer]
  split <;> simp_all

theorem splitBearer_of_some {s : List Char} {i : Nat} (h : firstOcc s = some i) :
    splitBearer s = s.take i :: splitBearer (s.drop (i + 6)) := by
  rw [splitBearer]
  split <;> simp_all

theorem countBearer_of_none {s : List Char} (h : firstOcc s = none) :
    countBearer s = 0 := by
  rw [countBearer]
  split <;> simp_all

theorem countBearer_of_some {s : List Char} {i : Nat} (h : firstOcc s = some i) :
    countBearer s = countBearer (s.drop (i + 6)) + 1 := by
  rw [countBearer]
  split <;> simp_all


theorem parseBearer_ne_nil {hd t : List Char} (hp : parseBearer hd = some t) : hd ≠ [] := by
  intro he
  subst he
  have h0 : splitBearer ([] : List Char) = [[]] := splitBearer_of_none rfl
  simp only [parseBearer, h0] at hp
  exact Option.noConfusion hp

theorem parseBearer_bearer_x : parseBearer "Bearer x".data = some "x".data := by
  simp only [parseBearer]
  rw [splitBearer_of_some (i := 0) (by decide), splitBearer_of_none (by decide)]
  decide

/-! ## Claim theorems -/

/-- C10: AllowAnonymous() on a per-route handler sets the allow-anonymous,
invalid-token-is-anonymous and invalid-scope-is-anonymous overrides to true while
leaving the allowed-scopes override unchanged; the two narrower builder methods each set
only their own flag. -/
theorem allowAnonymous_sets_three_flags (ah : apphandler) :
    ((ah.AllowAnonymous).allowAnonymous = some true ∧
     (ah.AllowAnonymous).invalidTokenIsAnonymous = some true ∧
     (ah.AllowAnonymous).invalidScopeIsAnonymous = some true ∧
     (ah.AllowAnonymous).allowedScopes = ah.allowedScopes) ∧
    ((ah.InvalidTokenIsAnonymous).invalidTokenIsAnonymous = some true ∧
     (ah.InvalidTokenIsAnonymous).allowAnonymous = ah.allowAnonymous ∧
     (ah.InvalidTokenIsAnonymous).invalidScopeIsAnonymous = ah.invalidScopeIsAnonymous ∧
     (ah.InvalidTokenIsAnonymous).allowedScopes = ah.allowedScopes) ∧
    ((ah.InvalidScopeIsAnonymous).invalidScopeIsAnonymous = some true ∧
     (ah.InvalidScopeIsAnonymous).allowAnonymous = ah.allowAnonymous ∧
     (ah.InvalidScopeIsAnonymous).invalidTokenIsAnonymous = ah.invalidTokenIsAnonymous ∧
     (ah.InvalidScopeIsAnonymous).allowedScopes = ah.allowedScopes) :=
  ⟨⟨rfl, rfl, rfl, rfl⟩, ⟨rfl, rfl, rfl, rfl⟩, ⟨rfl, rfl, rfl, rfl⟩⟩

/-- C2: with the global options carrying invalid_token_is_anonymous = true and
invalid_scope_is_anonymous = false, a route with no overrides computes an effective
invalid-token-is-anonymous of FALSE (the source falls back to the global
invalid-scope flag) and an invalid token is rejected with 401 instead of being treated
as anonymous. The other three effective fields do follow override-else-global. -/
theorem effInvalidToken_reads_invalid_scope_global :
    (⟨none, "", false, "*", false, true, false, false⟩ : AuthorizationWs).invalidTokenIsAnonymous
        = true ∧
    AppHandlerRoute.invalidTokenIsAnonymous = none ∧
    effInvalidTokenIsAnonymous ⟨none, "", false, "*", false, true, false, false⟩
        AppHandlerRoute = false ∧
    apphandlerServeHTTP AppHandlerRoute
        (some ⟨none, "", false, "*", false, true, false, false⟩)
        (some WsResolved.invalidToken) = Outcome.httpError 401 "Unauthorized" ∧
    effInvalidTokenIsAnonymous ⟨none, "", false, "*", false, true, false, false⟩
        (AppHandlerRoute.InvalidTokenIsAnonymous) = true :=
  ⟨rfl, rfl, rfl, rfl, rfl⟩

/-- C1: the key callback picks the RSA materialisation exactly for a resolved key whose
declared algorithm is RS256, the ECDSA materialisation exactly for ES256, errors with
"unsupported algorithm" for every other key algorithm, depends only on the token
header's kid (never on the token's claimed alg), and any callback error makes
jwt.Parse fail so the middleware leaves the invalid-token state. -/
theorem getKey_scheme_from_key_algorithm
    (a : Authorization) (fetched : Except String JwkSet) (tokenHeader : Claims)
    (jwks : JwkSet) (kid : String) (key : JwkKey)
    (hkid : tokenHeader.lookup "kid" = some (JsonVal.str kid))
    (hjwks : resolveJwks a fetched = Except.ok (some jwks))
    (hkey : lookupKeyID jwks kid = some key) :
    (key.algorithm = "RS256" → getKey a fetched tokenHeader = rawAsRSA key) ∧
    (key.algorithm = "ES256" → getKey a fetched tokenHeader = rawAsECDSA key) ∧
    (key.algorithm ≠ "RS256" → key.algorithm ≠ "ES256" →
      getKey a fetched tokenHeader =
        Except.error ("unsupported algorithm " ++ key.algorithm)) ∧
    (∀ tokenHeader2 : Claims, tokenHeader2.lookup "kid" = tokenHeader.lookup "kid" →
      getKey a fetched tokenHeader2 = getKey a fetched tokenHeader) ∧
    (∀ (msg : String) (header tokenString : List Char)
        (sigOk : VerificationKey → Bool) (payload : Claims),
      a.disabled = false →
      parseBearer header = some tokenString →
      getKey a fetched tokenHeader = Except.error msg →
      middlewareResolve a header
          (fun _ => jwtParseModel (getKey a fetched tokenHeader) sigOk payload) =
        ResolvedUser.invalidToken) := by
  refine ⟨?_, ?_, ?_, ?_, ?_⟩
  · intro h
    simp [getKey, hkid, hjwks, hkey, h]
  · intro h
    simp [getKey, hkid, hjwks, hkey, h]
  · intro h1 h2
    simp [getKey, hkid, hjwks, hkey, h1, h2]
  · intro tokenHeader2 h2
    simp only [getKey, h2]
  · intro msg header tokenString sigOk payload hdis hp hgk
    have hne : header ≠ [] := parseBearer_ne_nil hp
    simp [middlewareResolve, hdis, hne, hp, hgk, jwtParseModel]

/-- C1 witness: a static key set with an RS256 RSA key; the callback returns the RSA
public key even though the token header claims alg HS256. -/
theorem getKey_scheme_from_key_algorithm_witness :
    ([("kid", JsonVal.str "k1"), ("alg", JsonVal.str "HS256")] : Claims).lookup "kid" =
        some (JsonVal.str "k1") ∧
    getKey ⟨some [⟨"k1", "RS256", KeyMaterial.rsaKey 1⟩], "", false, "*",
        false, false, false, false, none⟩ (Except.error "unused")
        [("kid", JsonVal.str "k1"), ("alg", JsonVal.str "HS256")] =
      Except.ok (VerificationKey.rsaPublic 1) := by
  refine ⟨rfl, ?_⟩
  have h := (getKey_scheme_from_key_algorithm
    ⟨some [⟨"k1", "RS256", KeyMaterial.rsaKey 1⟩], "", false, "*",
      false, false, false, false, none⟩
    (Except.error "unused")
    [("kid", JsonVal.str "k1"), ("alg", JsonVal.str "HS256")]
    [⟨"k1", "RS256", KeyMaterial.rsaKey 1⟩] "k1" ⟨"k1", "RS256", KeyMaterial.rsaKey 1⟩
    rfl rfl rfl).1 rfl
  exact h

/-- C5: a request with no Authorization header resolves to the unauthenticated state in
both middleware variants, and enforcement allows with no user exactly when the
(effective) allow-anonymous flag is set, else 401. -/
theorem no_auth_header_unauthenticated
    (a : Authorization) (aw : AuthorizationWs) (ah : apphandler)
    (verify verifyW : List Char → Option Claims)
    (hadis : a.disabled = false) (hwdis : aw.disabled = false) :
    middlewareResolve a [] verify = ResolvedUser.unauthenticated ∧
    wsMiddlewareResolve [] verifyW = WsResolved.unauthenticated ∧
    appHandlerServe (some a) (some ResolvedUser.unauthenticated) =
      (if a.allowAnonymous then Outcome.allow none
       else Outcome.httpError 401 "Unauthorized") ∧
    apphandlerServeHTTP ah (some aw) (some WsResolved.unauthenticated) =
      (if effAllowAnonymous aw ah then Outcome.allow none
       else Outcome.httpError 401 "Unauthorized") := by
  refine ⟨by simp [middlewareResolve, hadis], by simp [wsMiddlewareResolve], ?_, ?_⟩
  · simp [appHandlerServe, hadis]
  · simp [apphandlerServeHTTP, hwdis]

/-- C5 witness: the anonymous-allowing route override lets a header-less request through
as anonymous even when the global flag denies it. -/
theorem no_auth_header_unauthenticated_witness :
    middlewareResolve ⟨none, "", false, "*", false, false, false, false, none⟩ []
        (fun _ => none) = ResolvedUser.unauthenticated ∧
    apphandlerServeHTTP AppHandlerRoute.AllowAnonymous
        (some ⟨none, "", false, "*", false, false, false, false⟩)
        (some WsResolved.unauthenticated) = Outcome.allow none := by
  have h := no_auth_header_unauthenticated
    ⟨none, "", false, "*", false, false, false, false, none⟩
    ⟨none, "", false, "*", false, false, false, false⟩
    AppHandlerRoute.AllowAnonymous (fun _ => none) (fun _ => none) rfl rfl
  exact ⟨h.1, h.2.2.2⟩


theorem middlewareResolve_verified
    (a : Authorization) (header tokenString : List Char)
    (verify : List Char → Option Claims) (claims : Claims)
    (hdis : a.disabled = false)
    (hp : parseBearer header = some tokenString)
    (hv : verify tokenString = some claims) :
    middlewareResolve a header verify = resolveVerified a claims := by
  have hne : header ≠ [] := parseBearer_ne_nil hp
  simp [middlewareResolve, hdis, hne, hp, hv]

theorem resolveVerified_user
    (a : Authorization) (claims : Claims)
    (hval : a.userValidator = none)
    (hsub : lookupString claims "sub" ≠ "")
    (hscope : (extractScopes claims).contains a.requiredScope = true ∨
              (extractScopes claims).contains "*" = true) :
    resolveVerified a claims =
      ResolvedUser.user ⟨lookupString claims "sub", lookupString claims "email",
        extractScopes claims, claims⟩ := by
  simp only [resolveVerified, hval]
  rw [if_pos hsub, if_neg]
  rintro ⟨h1, h2, h3, h4⟩
  rcases hscope with hc | hc
  · exact h3 (by simpa [hasScope] using hc)
  · exact h4 (by simpa [hasScope] using hc)

theorem resolveVerified_invalidToken_iff (a : Authorization) (claims : Claims) :
    resolveVerified a claims = ResolvedUser.invalidToken ↔
      lookupString claims "sub" = "" := by
  simp only [resolveVerified]
  constructor
  · intro h
    by_contra hsub
    rw [if_pos hsub] at h
    rcases hvv : a.userValidator with _ | f <;> rw [hvv] at h <;>
      repeat
        first
          | exact ResolvedUser.noConfusion h
          | split at h
  · intro h
    rw [if_neg (by simp [h])]

/-- C3: a token that verifies with a non-empty sub and whose extracted scope list
contains the required scope or the wildcard resolves to an authenticated user whose
user id is the sub claim, and enforcement allows it; moreover a verified token resolves
to the invalid-token state exactly when its sub is empty. -/
theorem verified_token_with_scope_allows_identity
    (a : Authorization) (header tokenString : List Char)
    (verify : List Char → Option Claims) (claims : Claims)
    (hdis : a.disabled = false) (hval : a.userValidator = none)
    (hp : parseBearer header = some tokenString)
    (hv : verify tokenString = some claims) :
    (lookupString claims "sub" ≠ "" →
      ((extractScopes claims).contains a.requiredScope = true ∨
       (extractScopes claims).contains "*" = true) →
      middlewareResolve a header verify =
        ResolvedUser.user ⟨lookupString claims "sub", lookupString claims "email",
          extractScopes claims, claims⟩ ∧
      appHandlerServe (some a) (some (middlewareResolve a header verify)) =
        Outcome.allow (some ⟨lookupString claims "sub", lookupString claims "email",
          extractScopes claims, claims⟩)) ∧
    (middlewareResolve a header verify = ResolvedUser.invalidToken ↔
      lookupString claims "sub" = "") := by
  have hmr := middlewareResolve_verified a header tokenString verify claims hdis hp hv
  constructor
  · intro hsub hscope
    have hu := resolveVerified_user a claims hval hsub hscope
    refine ⟨hmr.trans hu, ?_⟩
    rw [hmr, hu]
    simp [appHandlerServe, hdis]
  · rw [hmr]
    exact resolveVerified_invalidToken_iff a claims

/-- C3 witness: required scope "read", list-encoded scopes ["read"], sub "alice". -/
theorem verified_token_with_scope_allows_identity_witness :
    parseBearer "Bearer x".data = some "x".data ∧
    middlewareResolve ⟨none, "", false, "read", false, false, false, false, none⟩
        "Bearer x".data (fun t => if t = "x".data then some claimsAlice else none) =
      ResolvedUser.user ⟨"alice", "", ["read"], claimsAlice⟩ ∧
    appHandlerServe (some ⟨none, "", false, "read", false, false, false, false, none⟩)
        (some (middlewareResolve ⟨none, "", false, "read", false, false, false, false, none⟩
          "Bearer x".data (fun t => if t = "x".data then some claimsAlice else none))) =
      Outcome.allow (some ⟨"alice", "", ["read"], claimsAlice⟩) := by
  have h := (verified_token_with_scope_allows_identity
    ⟨none, "", false, "read", false, false, false, false, none⟩
    "Bearer x".data "x".data (fun t => if t = "x".data then some claimsAlice else none)
    claimsAlice rfl rfl parseBearer_bearer_x rfl).1
    (by decide) (Or.inl (by decide))
  exact ⟨parseBearer_bearer_x, h.1, h.2⟩

/-- C6: a verified token with non-empty sub whose scope list contains neither the
required scope (itself neither empty nor the wildcard) nor the wildcard resolves to the
invalid-scope state, and enforcement yields 403 unless invalid-scope-is-anonymous is
set, in which case it allows with no user. -/
theorem invalid_scope_forbidden_unless_anonymous
    (a : Authorization) (header tokenString : List Char)
    (verify : List Char → Option Claims) (claims : Claims)
    (hdis : a.disabled = false) (hval : a.userValidator = none)
    (hp : parseBearer header = some tokenString)
    (hv : verify tokenString = some claims)
    (hsub : lookupString claims "sub" ≠ "")
    (hr1 : a.requiredScope ≠ "") (hr2 : a.requiredScope ≠ "*")
    (hs1 : (extractScopes claims).contains a.requiredScope = false)
    (hs2 : (extractScopes claims).contains "*" = false) :
    middlewareResolve a header verify = ResolvedUser.invalidScope ∧
    appHandlerServe (some a) (some ResolvedUser.invalidScope) =
      (if a.invalidScopeIsAnonymous then Outcome.allow none
       else Outcome.httpError 403 "Forbidden") := by
  have hmr := middlewareResolve_verified a header tokenString verify claims hdis hp hv
  have hrv : resolveVerified a claims = ResolvedUser.invalidScope := by
    simp only [resolveVerified, hval]
    rw [if_pos hsub, if_pos]
    exact ⟨hr1, hr2, by simpa [hasScope] using hs1, by simpa [hasScope] using hs2⟩
  exact ⟨hmr.trans hrv, by simp [appHandlerServe, hdis]⟩

/-- C6 witness: required scope "admin", scopes ["write"], invalid-scope-is-anonymous off. -/
theorem invalid_scope_forbidden_unless_anonymous_witness :
    middlewareResolve ⟨none, "", false, "admin", false, false, false, false, none⟩
        "Bearer x".data (fun t => if t = "x".data then some claimsBob else none) =
      ResolvedUser.invalidScope ∧
    appHandlerServe (some ⟨none, "", false, "admin", false, false, false, false, none⟩)
        (some ResolvedUser.invalidScope) = Outcome.httpError 403 "Forbidden" := by
  have h := invalid_scope_forbidden_unless_anonymous
    ⟨none, "", false, "admin", false, false, false, false, none⟩
    "Bearer x".data "x".data (fun t => if t = "x".data then some claimsBob else none)
    claimsBob rfl rfl parseBearer_bearer_x rfl (by decide) (by decide) (by decide)
    (by decide) (by decide)
  exact ⟨h.1, h.2⟩

/-- C8: a token that verifies with sub equal to the invalid-token sentinel field value
(and a wildcard scope) is still resolved as an authenticated user — its user id
coincides with the sentinel field yet enforcement allows it — while the genuine
invalid-token sentinel state is rejected with 401 under the same options. -/
theorem sentinel_field_values_not_confused
    (a : Authorization) (header tokenString : List Char)
    (verify : List Char → Option Claims) (claims : Claims)
    (hdis : a.disabled = false) (hval : a.userValidator = none)
    (hp : parseBearer header = some tokenString)
    (hv : verify tokenString = some claims)
    (hsub : lookupString claims "sub" = "_invalid_token_")
    (hw : (extractScopes claims).contains "*" = true)
    (hanon : a.invalidTokenIsAnonymous = false) :
    ∃ u : UserInfo,
      middlewareResolve a header verify = ResolvedUser.user u ∧
      u.userID = userWithInvalidToken.userID ∧
      appHandlerServe (some a) (some (ResolvedUser.user u)) = Outcome.allow (some u) ∧
      appHandlerServe (some a) (some ResolvedUser.invalidToken) =
        Outcome.httpError 401 "Unauthorized" := by
  have hmr := middlewareResolve_verified a header tokenString verify claims hdis hp hv
  have hsubne : lookupString claims "sub" ≠ "" := by
    rw [hsub]
    decide
  have hu := resolveVerified_user a claims hval hsubne (Or.inr hw)
  refine ⟨_, hmr.trans hu, ?_, ?_, ?_⟩
  · simp [hsub, userWithInvalidToken]
  · simp [appHandlerServe, hdis]
  · simp [appHandlerServe, hdis, hanon]

/-- C8 witness: a verified token with sub "_invalid_token_" is authenticated and allowed
while the true sentinel state is rejected. -/
theorem sentinel_field_values_not_confused_witness :
    ∃ u : UserInfo,
      middlewareResolve ⟨none, "", false, "admin", false, false, false, false, none⟩
          "Bearer x".data
          (fun t => if t = "x".data then some claimsSentinelLike else none) =
        ResolvedUser.user u ∧
      u.userID = userWithInvalidToken.userID ∧
      appHandlerServe (some ⟨none, "", false, "admin", false, false, false, false, none⟩)
          (some (ResolvedUser.user u)) = Outcome.allow (some u) ∧
      appHandlerServe (some ⟨none, "", false, "admin", false, false, false, false, none⟩)
          (some ResolvedUser.invalidToken) = Outcome.httpError 401 "Unauthorized" :=
  sentinel_field_values_not_confused
    ⟨none, "", false, "admin", false, false, false, false, none⟩
    "Bearer x".data "x".data
    (fun t => if t = "x".data then some claimsSentinelLike else none)
    claimsSentinelLike rfl rfl parseBearer_bearer_x rfl rfl (by decide) rfl


theorem filterMap_str_map (l : List String) :
    (l.map JsonVal.str).filterMap (fun v =>
      match v with
      | JsonVal.str s => some s
      | _ => none) = l := by
  induction l with
  | nil => rfl
  | cons a t ih => simp [List.filterMap_cons, ih]

/-- C4 counterexample: under the authorization-package middleware with required scope
"read", the same scope set encoded as the space-delimited string claim is NOT accepted
(the extracted scope list is empty, so the token lands in the invalid-scope state),
while the list encoding is accepted; only the webservice-package variant reads the
string encoding. -/
theorem scope_string_encoding_rejected_cex :
    middlewareResolve ⟨none, "", false, "read", false, false, false, false, none⟩
        "Bearer x".data (fun t => if t = "x".data then some claimsScopeStr else none) =
      ResolvedUser.invalidScope ∧
    middlewareResolve ⟨none, "", false, "read", false, false, false, false, none⟩
        "Bearer x".data (fun t => if t = "x".data then some claimsScopeList else none) =
      ResolvedUser.user ⟨"bob", "", ["read", "write"], claimsScopeList⟩ ∧
    extractScopes claimsScopeStr = [] ∧
    wsExtractScopes claimsScopeStr = ["read", "write"] := by
  have hmr1 := middlewareResolve_verified
    ⟨none, "", false, "read", false, false, false, false, none⟩
    "Bearer x".data "x".data
    (fun t => if t = "x".data then some claimsScopeStr else none)
    claimsScopeStr rfl parseBearer_bearer_x rfl
  have hmr2 := middlewareResolve_verified
    ⟨none, "", false, "read", false, false, false, false, none⟩
    "Bearer x".data "x".data
    (fun t => if t = "x".data then some claimsScopeList else none)
    claimsScopeList rfl parseBearer_bearer_x rfl
  exact ⟨hmr1.trans rfl, hmr2.trans rfl, rfl, by decide⟩

/-- C4 amended: each middleware variant accepts exactly one scopes encoding — the
authorization package normalizes only the list-valued `scopes` claim (a string-valued
claim contributes no scopes), the webservice package normalizes only the space-delimited
string `scope` claim (a list-valued claim contributes no scopes). -/
theorem scope_encoding_per_variant (scopeStrs : List String) (s : String) (rest : Claims) :
    extractScopes (("scopes", JsonVal.arr (scopeStrs.map JsonVal.str)) :: rest) =
      scopeStrs ∧
    wsExtractScopes (("scope", JsonVal.str s) :: rest) = goFields s ∧
    (rest.lookup "scopes" = none →
      extractScopes (("scope", JsonVal.str s) :: rest) = []) ∧
    (rest.lookup "scope" = none →
      wsExtractScopes (("scopes", JsonVal.arr (scopeStrs.map JsonVal.str)) :: rest) = []) := by
  refine ⟨?_, rfl, ?_, ?_⟩
  · exact filterMap_str_map scopeStrs
  · intro h
    have hl : List.lookup "scopes" (("scope", JsonVal.str s) :: rest) =
        List.lookup "scopes" rest := rfl
    simp only [extractScopes, hl, h]
  · intro h
    have hl : List.lookup "scope"
        (("scopes", JsonVal.arr (scopeStrs.map JsonVal.str)) :: rest) =
        List.lookup "scope" rest := rfl
    simp only [wsExtractScopes, hl, h]

/-- C4 witness: list encoding ["read"] normalizes to ["read"] in the authorization
variant; string encoding "a b" normalizes to ["a", "b"] in the webservice variant and to
nothing in the authorization variant. -/
theorem scope_encoding_per_variant_witness :
    (([] : Claims).lookup "scopes" = none) ∧
    extractScopes [("scopes", JsonVal.arr [JsonVal.str "read"])] = ["read"] ∧
    wsExtractScopes [("scope", JsonVal.str "a b")] = ["a", "b"] ∧
    extractScopes [("scope", JsonVal.str "a b")] = [] := by
  have h := scope_encoding_per_variant ["read"] "a b" []
  exact ⟨rfl, h.1, h.2.1.trans (by decide), h.2.2.1 rfl⟩

theorem splitBearer_length (s : List Char) :
    (splitBearer s).length = countBearer s + 1 := by
  generalize hn : s.length = n
  induction n using Nat.strong_induction_on generalizing s with
  | _ n ih =>
    cases h : firstOcc s with
    | none =>
      rw [splitBearer_of_none h, countBearer_of_none h]
      rfl
    | some i =>
      rw [splitBearer_of_some h, countBearer_of_some h]
      have hne := firstOcc_some_ne_nil h
      have hlt : (s.drop (i + 6)).length < n := by
        subst hn
        simp only [List.length_drop]
        have hpos : 0 < s.length := List.length_pos.mpr hne
        omega
      simp only [List.length_cons]
      rw [ih _ hlt _ rfl]

theorem countBearer_zero_iff (s : List Char) :
    countBearer s = 0 ↔ firstOcc s = none := by
  cases h : firstOcc s with
  | none => simp [countBearer_of_none h, h]
  | some i => simp [countBearer_of_some h, h]

theorem parseBearer_isSome_iff (hd : List Char) :
    (parseBearer hd).isSome = true ↔ countBearer hd = 1 := by
  have hl := splitBearer_length hd
  unfold parseBearer
  rcases e : splitBearer hd with _ | ⟨a, _ | ⟨b, _ | ⟨c, rest⟩⟩⟩
  all_goals rw [e] at hl
  all_goals simp_all
  all_goals omega

/-- C7 amended: a non-empty Authorization header is accepted for verification exactly
when the substring "Bearer" occurs exactly once in it; in that case the text after the
single occurrence, trimmed of surrounding spaces, is the token handed to verification
(text before the marker is ignored and the token may keep internal spaces); any other
marker count is treated as a wrong header and yields the invalid-token state. -/
theorem bearer_single_marker_rule
    (a : Authorization) (verify : List Char → Option Claims) (header : List Char)
    (hdis : a.disabled = false) (hne : header ≠ []) :
    ((parseBearer header).isSome = true ↔ countBearer header = 1) ∧
    (countBearer header ≠ 1 →
      parseBearer header = none ∧
      middlewareResolve a header verify = ResolvedUser.invalidToken) ∧
    (∀ i : Nat, firstOcc header = some i → countBearer header = 1 →
      parseBearer header = some (trimSpaces (header.drop (i + 6)))) := by
  refine ⟨parseBearer_isSome_iff header, ?_, ?_⟩
  · intro hcount
    have hnone : parseBearer header = none := by
      cases e : parseBearer header with
      | none => rfl
      | some t =>
        exact absurd ((parseBearer_isSome_iff header).mp (by simp [e])) hcount
    refine ⟨hnone, ?_⟩
    simp [middlewareResolve, hdis, hne, hnone]
  · intro i hi hcount
    have h0 : countBearer (header.drop (i + 6)) = 0 := by
      have hc := countBearer_of_some hi
      omega
    have hfo : firstOcc (header.drop (i + 6)) = none := (countBearer_zero_iff _).mp h0
    simp only [parseBearer]
    rw [splitBearer_of_some hi, splitBearer_of_none hfo]

/-- C7 witness: a header with two "Bearer" markers is rejected as a wrong header and
leaves the invalid-token state. -/
theorem bearer_single_marker_rule_witness :
    countBearer "BearerBearer x".data = 2 ∧
    parseBearer "BearerBearer x".data = none ∧
    middlewareResolve ⟨none, "", false, "*", false, false, false, false, none⟩
        "BearerBearer x".data (fun _ => none) = ResolvedUser.invalidToken := by
  have hcount : countBearer "BearerBearer x".data = 2 := by
    rw [countBearer_of_some (i := 0) (by decide), countBearer_of_some (i := 0) (by decide),
      countBearer_of_none (by decide)]
  have h := (bearer_single_marker_rule
    ⟨none, "", false, "*", false, false, false, false, none⟩
    (fun _ => none) "BearerBearer x".data rfl (by decide)).2.1 (by omega)
  exact ⟨hcount, h.1, h.2⟩

/-- C7 counterexample: the header "xBearer y" is not of the Bearer-then-token shape the
claim requires, yet the middleware accepts it for verification with token "y" — the text
before the marker is ignored — and a successful verification even authenticates it. -/
theorem bearer_prefix_accepted_cex :
    parseBearer "xBearer y".data = some "y".data ∧
    specBearerHeaderOk "xBearer y".data = false ∧
    middlewareResolve ⟨none, "", false, "*", false, false, false, false, none⟩
        "xBearer y".data
        (fun t => if t = "y".data then some [("sub", JsonVal.str "mallory")] else none) =
      ResolvedUser.user ⟨"mallory", "", [], [("sub", JsonVal.str "mallory")]⟩ := by
  have hp : parseBearer "xBearer y".data = some "y".data := by
    simp only [parseBearer]
    rw [splitBearer_of_some (i := 1) (by decide), splitBearer_of_none (by decide)]
    decide
  have hmr := middlewareResolve_verified
    ⟨none, "", false, "*", false, false, false, false, none⟩
    "xBearer y".data "y".data
    (fun t => if t = "y".data then some [("sub", JsonVal.str "mallory")] else none)
    [("sub", JsonVal.str "mallory")] rfl hp rfl
  exact ⟨hp, by decide, hmr.trans rfl⟩

end BeanoxWebservice
